import Mathlib

/-!
Verification development for the TezkorContent menu bot
(`dish_parser.py`, `sessions.py`, `bot.py`, `sheets.py`).

The Python code is shallowly embedded as executable Lean functions over
`List Char` / `String`.  Python's regular-expression calls are embedded by
their extensional behaviour (leftmost match, ordered alternation, the
greedy/lazy backtracking discipline of the concrete patterns), which for the
concrete patterns used by the code is deterministic and is spelled out in
comments next to each function.  Character classes (`\s`, `\d`, `\w`,
`str.isalpha`, `str.lower`) are modelled over ASCII plus the Cyrillic block,
which covers every alphabet the code's keyword tables and the bot's inputs
use.  Lines handed to the line-level helpers contain no newline characters
(they come out of `splitlines`), which the embeddings of the line-anchored
patterns rely on.
-/

/-! ## Character classes and basic string utilities -/

/-- Whitespace as recognised by Python's `str.strip` / regex `\s`
(ASCII whitespace plus the common Unicode space characters). -/
def pyIsSpace (c : Char) : Bool :=
  c = ' ' || c = '\t' || c = '\n' || c = '\r' ||
  c = Char.ofNat 11 || c = Char.ofNat 12 ||
  c = Char.ofNat 133 || c = Char.ofNat 160 ||
  c = Char.ofNat 0x2028 || c = Char.ofNat 0x2029

/-- Decimal digit (regex `\d`, `str.isdigit` for the inputs in scope). -/
def pyIsDigit (c : Char) : Bool := '0' ≤ c && c ≤ '9'

/-- Letter: ASCII letters plus the Cyrillic block (Python `str.isalpha`
restricted to the alphabets the bot's data uses). -/
def pyIsAlpha (c : Char) : Bool :=
  ('a' ≤ c && c ≤ 'z') || ('A' ≤ c && c ≤ 'Z') ||
  (Char.ofNat 0x400 ≤ c && c ≤ Char.ofNat 0x4FF)

/-- Word character for regex `\b` boundaries (`\w`): letter, digit or `_`. -/
def pyIsWordChar (c : Char) : Bool := pyIsAlpha c || pyIsDigit c || c = '_'

/-- Python `str.lower`, character-wise, for ASCII and the Cyrillic range
used by the code (`А..Я` → `а..я`, `Ё` → `ё`). -/
def pyToLower (c : Char) : Char :=
  if 'A' ≤ c && c ≤ 'Z' then Char.ofNat (c.toNat + 32)
  else if Char.ofNat 0x410 ≤ c && c ≤ Char.ofNat 0x42F then Char.ofNat (c.toNat + 32)
  else if c = Char.ofNat 0x401 then Char.ofNat 0x451
  else c

/-- Drop trailing whitespace (`str.rstrip`). -/
def dropTrailingWs (l : List Char) : List Char :=
  (l.reverse.dropWhile pyIsSpace).reverse

/-- Python `str.strip`. -/
def stripChars (l : List Char) : List Char :=
  dropTrailingWs (l.dropWhile pyIsSpace)

/-- Lowercase a whole line. -/
def lowerChars (l : List Char) : List Char := l.map pyToLower

/-- Line-break characters recognised by Python `str.splitlines`. -/
def isLineBreak (c : Char) : Bool :=
  c = '\n' || c = '\r' || c = Char.ofNat 11 || c = Char.ofNat 12 ||
  c = Char.ofNat 28 || c = Char.ofNat 29 || c = Char.ofNat 30 ||
  c = Char.ofNat 133 || c = Char.ofNat 0x2028 || c = Char.ofNat 0x2029

/-- Worker for `splitlines`: accumulates the current line reversed. -/
def splitlinesGo : List Char → List Char → List (List Char)
  | [], acc => if acc.isEmpty then [] else [acc.reverse]
  | '\r' :: '\n' :: rest, acc => acc.reverse :: splitlinesGo rest []
  | c :: rest, acc =>
      if isLineBreak c then acc.reverse :: splitlinesGo rest []
      else splitlinesGo rest (c :: acc)

/-- Python `str.splitlines` (no trailing empty line for a terminal break). -/
def splitlines (l : List Char) : List (List Char) := splitlinesGo l []

/-- Worker for `splitWs`. -/
def splitWsGo : List Char → List Char → List (List Char)
  | cur, [] => if cur.isEmpty then [] else [cur.reverse]
  | cur, c :: rest =>
      if pyIsSpace c then
        if cur.isEmpty then splitWsGo [] rest else cur.reverse :: splitWsGo [] rest
      else splitWsGo (c :: cur) rest

/-- Python `str.split()` with no argument: split on whitespace runs,
discarding empty fields. -/
def splitWs (l : List Char) : List (List Char) := splitWsGo [] l

/-- `low.split(" ", 1)[0]`: the prefix before the first literal space. -/
def firstTokenSpace (l : List Char) : List Char := l.takeWhile (fun c => c ≠ ' ')

/-- Worker for `collapseWs` (tracks whether the previous char was whitespace). -/
def collapseWsGo : Bool → List Char → List Char
  | _, [] => []
  | prev, c :: rest =>
      if pyIsSpace c then
        if prev then collapseWsGo true rest else ' ' :: collapseWsGo true rest
      else c :: collapseWsGo false rest

/-- `re.sub(r"\s+", " ", k)`: each whitespace run becomes a single space. -/
def collapseWs (l : List Char) : List Char := collapseWsGo false l

/-- Python `needle in haystack` substring test. -/
def isSubstring : List Char → List Char → Bool
  | n, [] => n.isEmpty
  | n, h@(_ :: t) => n.isPrefixOf h || isSubstring n t

/-- `"\n".join(lines)`. -/
def joinLines : List (List Char) → List Char
  | [] => []
  | [l] => l
  | l :: ls => l ++ '\n' :: joinLines ls

/-- `", ".join(parts)`. -/
def joinComma : List (List Char) → List Char
  | [] => []
  | [l] => l
  | l :: ls => l ++ ',' :: ' ' :: joinComma ls

/-- Numeric value of a digit string (used where Python calls `int` on a
string of decimal digits). -/
def natOfDigits (l : List Char) : Nat :=
  l.foldl (fun a c => 10 * a + (c.toNat - 48)) 0

/-- Minimum of a list of naturals (Python `min` on a non-empty list;
the `[]` default is never reached by the embedded code). -/
def minNat : List Nat → Nat
  | [] => 0
  | x :: xs => xs.foldl Nat.min x

/-- Truthiness of an optional string (Python `bool` on `None`/`str`). -/
def optTruthyStr (o : Option String) : Bool :=
  match o with
  | none => false
  | some s => !s.isEmpty

/-- Falsiness of an optional string: `None` or `""`. -/
def optFalsyStr (o : Option String) : Bool := !optTruthyStr o

/-- Falsiness of an optional integer: `None` or `0`. -/
def optFalsyNat (o : Option Nat) : Bool :=
  match o with
  | none => true
  | some n => n == 0

example : stripChars "  Плов  ".data = "Плов".data := by decide
example : splitlines "a\nb\r\nc".data = ["a".data, "b".data, "c".data] := by decide
example : collapseWs "a  b".data = "a b".data := by decide
example : splitWs " цена  9000 ".data = ["цена".data, "9000".data] := by decide

/-! ## Keyword dictionary (`KEY_ALIASES`, `STOP_KEYS`) -/

/-- Canonical field identifiers of `KEY_ALIASES`. -/
inductive FieldKey
  | name | composition | description | price | weight | category | ikpu
  deriving DecidableEq, Repr

/-- ASCII apostrophe (written numerically; it occurs inside three alias
strings). -/
def apos : Char := Char.ofNat 39

/-- The alias `"ta'rif"`. -/
def aliasTarif : String := String.mk ['t', 'a', apos, 'r', 'i', 'f']

/-- The alias `"og'irlik"`. -/
def aliasOgirlik : String := String.mk ['o', 'g', apos, 'i', 'r', 'l', 'i', 'k']

/-- The currency token `"so'm"`. -/
def currencySom2 : String := String.mk ['s', 'o', apos, 'm']

/-- `KEY_ALIASES`, in the declaration (dict-insertion) order used by
`_canon_key`'s first-match rule. -/
def KEY_ALIASES : List (FieldKey × List String) :=
  [ (FieldKey.name,
      ["наименование", "название", "имя", "товар", "позиция",
       "nomi", "nom", "name", "title", "naming"]),
    (FieldKey.composition,
      ["состав", "ингредиенты", "ингр", "сост", "композиция",
       "tarkib", "tarkibi", "ingred", "ingredients"]),
    (FieldKey.description,
      ["описание", "опис", "описание товара",
       "tavsif", aliasTarif, "tarif", "description", "desc"]),
    (FieldKey.price,
      ["цена", "стоимость", "сумма", "цена сум", "цена (сум)",
       "narx", "price", "cost"]),
    (FieldKey.weight,
      ["вес", "масса", "объем", "объём", "порция", "выход",
       aliasOgirlik, "ogirlik", "vazn", "hajm", "weight", "size"]),
    (FieldKey.category,
      ["категория", "раздел", "группа",
       "kategoriya", "category"]),
    (FieldKey.ikpu,
      ["икпу", "ikpu", "ipku", "ипку"]) ]

/-- All alias strings (as char lists).  `STOP_KEYS` is
`tuple(sorted({...}))` in the source; it is only ever used for membership
and existential tests, for which sorting and deduplication are irrelevant. -/
def STOP_KEYS : List (List Char) :=
  (KEY_ALIASES.map (fun p => p.2)).flatten.map String.data

/-- The composition aliases (`KEY_ALIASES["composition"]`). -/
def compositionAliases : List (List Char) :=
  ["состав".data, "ингредиенты".data, "ингр".data, "сост".data, "композиция".data,
   "tarkib".data, "tarkibi".data, "ingred".data, "ingredients".data]

/-- `_canon_key`: strip, lower, collapse inner whitespace, then return the
first canonical field (in declared order) owning the alias. -/
def canon_key (raw : List Char) : Option FieldKey :=
  let k := String.mk (collapseWs (lowerChars (stripChars raw)))
  KEY_ALIASES.findSome? (fun p => if p.2.contains k then some p.1 else none)

/-! ## Regex models -/

/-- The separator class `[:—\-–]` of `_LABELED_RE` and the stop-key tests. -/
def isSepChar (c : Char) : Bool :=
  c = ':' || c = '—' || c = '-' || c = '–'

/-- The dash class `[—\-–]` of `_PAIR_RE`. -/
def isDashSep (c : Char) : Bool :=
  c = '—' || c = '-' || c = '–'

/-- `re.match(r"^\s*{k}\s*[:—\-–]", low)` for a literal key `k`: optional
leading whitespace, the key, optional whitespace, then a separator. -/
def startsWithKeyAndSep (k : List Char) (low : List Char) : Bool :=
  let t := low.dropWhile pyIsSpace
  k.isPrefixOf t &&
    (match ((t.drop k.length).dropWhile pyIsSpace).head? with
     | some c => isSepChar c
     | none => false)

/-- `re.match(r"^\s*{a}\s*:\s*", low)` for a literal alias `a` (the
colon-only header test of `collect_block`). -/
def startsWithAliasColon (a : List Char) (low : List Char) : Bool :=
  let t := low.dropWhile pyIsSpace
  a.isPrefixOf t &&
    (match ((t.drop a.length).dropWhile pyIsSpace).head? with
     | some c => c = ':'
     | none => false)

/-- The two stop conditions shared by `collect_block`,
`extract_composition_from_lines` and the fallbacks:
`any(re.match(r"^\s*{k}\s*[:—\-–]", low) for k in STOP_KEYS)` or
`low.split(" ", 1)[0] in STOP_KEYS and len(low.split()) >= 2`. -/
def stopCondKeys (low : List Char) : Bool :=
  STOP_KEYS.any (fun k => startsWithKeyAndSep k low) ||
  (STOP_KEYS.contains (firstTokenSpace low) && 2 ≤ (splitWs low).length)

/-- Everything after the first `':'` of a line (total; the callers only use
it when a colon is known to be present). -/
def afterFirstColon : List Char → List Char
  | [] => []
  | ':' :: rest => rest
  | _ :: rest => afterFirstColon rest

/-- Split a line at its first `_LABELED_RE` separator character. -/
def splitAtFirstSep : List Char → List Char → Option (List Char × List Char)
  | [], _ => none
  | c :: rest, acc =>
      if isSepChar c then some (acc.reverse, rest)
      else splitAtFirstSep rest (c :: acc)

/-- Extensional model of
`_LABELED_RE = ^\s*(?P<key>[^\n\r:—\-–]{2,40}?)\s*[:—\-–]\s*(?P<value>.+?)\s*$`
on a newline-free line.  The key cannot contain a separator, so the matched
separator is the line's first separator character; the match succeeds iff at
least two characters precede it, the stripped prefix is at most 40
characters, and at least one character follows it.  The code only consumes
`strip(lower(key))` (via `_canon_key`) and `value.strip()`, both of which
are independent of the engine's choice among the witnessing key spans, so
the raw prefix and suffix are returned. -/
def LABELED_RE_match (line : List Char) : Option (List Char × List Char) :=
  match splitAtFirstSep line [] with
  | none => none
  | some (pre, post) =>
      if 2 ≤ pre.length && (stripChars pre).length ≤ 40 && !post.isEmpty then
        some (pre, post)
      else none

/-- The price-body class `[\d\s.,]` of `_PAIR_RE` / `_PRICE_LINE_RE`. -/
def pairPriceClass (c : Char) : Bool :=
  pyIsDigit c || pyIsSpace c || c = '.' || c = ','

/-- The `(?P<price>\d[\d\s.,]*\d)\s*$` tail of `_PAIR_RE`: after removing
trailing whitespace the remainder must be the price group itself — at least
two characters, first and last a digit, the rest in the body class. -/
def pairPriceCore (s : List Char) : Option (List Char) :=
  let core := dropTrailingWs s
  match core.head?, core.getLast? with
  | some c1, some c2 =>
      if 2 ≤ core.length && pyIsDigit c1 && pyIsDigit c2 &&
          ((core.drop 1).dropLast.all pairPriceClass) then some core
      else none
  | _, _ => none

/-- One lazy-label attempt of `_PAIR_RE` at a fixed label end: skip
whitespace, require a dash, skip whitespace, then the price tail. -/
def pairAttempt (labelRev : List Char) (rest : List Char) :
    Option (List Char × List Char) :=
  match (rest.dropWhile pyIsSpace).head? with
  | some d =>
      if isDashSep d then
        match pairPriceCore (((rest.dropWhile pyIsSpace).drop 1).dropWhile pyIsSpace) with
        | some core => some (labelRev.reverse, core)
        | none => none
      else none
  | none => none

/-- Lazy growth of the `_PAIR_RE` label (`.+?` tries the shortest label
first, growing one character at a time). -/
def pairMatchGo : List Char → List Char → Option (List Char × List Char)
  | labelRev, [] => pairAttempt labelRev []
  | labelRev, c :: rest =>
      match pairAttempt labelRev (c :: rest) with
      | some r => some r
      | none => pairMatchGo (c :: labelRev) rest

/-- Extensional model of
`_PAIR_RE = ^(?P<label>.+?)\s*[—\-–]\s*(?P<price>\d[\d\s.,]*\d)\s*$` on a
newline-free line, returning the label and price groups. -/
def PAIR_RE_match (line : List Char) : Option (List Char × List Char) :=
  match line with
  | [] => none
  | c :: rest => pairMatchGo [c] rest

example : PAIR_RE_match "400 г - 60000".data = some ("400 г".data, "60000".data) := by decide
example : PAIR_RE_match "a - b - 123".data = some ("a - b".data, "123".data) := by decide
example : PAIR_RE_match "Состав: рис".data = none := by decide
example : LABELED_RE_match "Состав: рис, морковь, мясо".data =
    some ("Состав".data, " рис, морковь, мясо".data) := by decide
example : LABELED_RE_match "Состав:".data = none := by decide
example : LABELED_RE_match "a: b".data = none := by decide
example : canon_key "Состав".data = some FieldKey.composition := by decide

/-- The currency alternatives of `_PRICE_LINE_RE` (lowercase; none is a
suffix of another, so at most one can match a given line ending). -/
def currencyWords : List (List Char) :=
  ["сум".data, "sum".data, "som".data, currencySom2.data, "uzs".data]

/-- Extensional model of
`_PRICE_LINE_RE = ^\s*\d[\d\s.,]{1,}\d\s*(?:сум|sum|som|so'm|uzs)?\s*$`
(case-insensitive): strip, lower, remove a currency suffix if present and
re-strip, then the remainder must be digit, one-or-more body-class
characters, digit. -/
def PRICE_LINE_RE_match (line : List Char) : Bool :=
  let t := lowerChars (stripChars line)
  let u :=
    match currencyWords.findSome? (fun w =>
      if w.isSuffixOf t then some (dropTrailingWs (t.take (t.length - w.length)))
      else none) with
    | some u => u
    | none => t
  match u.head?, u.getLast? with
  | some c1, some c2 =>
      3 ≤ u.length && pyIsDigit c1 && pyIsDigit c2 &&
        ((u.drop 1).dropLast.all pairPriceClass)
  | _, _ => false

/-- `\b` holds before the current position given the previous character. -/
def boundaryBefore (prev : Option Char) : Bool :=
  match prev with
  | none => true
  | some c => !pyIsWordChar c

/-- `\b` holds at the start of the remaining suffix (the matched text ends
in a word character; the next one must not be one). -/
def boundaryHead (l : List Char) : Bool :=
  match l.head? with
  | none => true
  | some c => !pyIsWordChar c

/-- Does `\b\d{17}\b` match at the start of `l` (given the char before)? -/
def ikpuHereOk (prev : Option Char) (l : List Char) : Bool :=
  boundaryBefore prev && (l.take 17).length == 17 &&
    (l.take 17).all pyIsDigit && boundaryHead (l.drop 17)

/-- Leftmost-match scan for `_IKPU_ANY_RE = \b\d{17}\b`. -/
def ikpuGo : Option Char → List Char → Option (List Char)
  | _, [] => none
  | prev, c :: rest =>
      if ikpuHereOk prev (c :: rest) then some ((c :: rest).take 17)
      else ikpuGo (some c) rest

/-- `_IKPU_ANY_RE.search`: the first 17-digit run delimited by word
boundaries, if any. -/
def IKPU_ANY_RE_search (l : List Char) : Option (List Char) := ikpuGo none l

example : IKPU_ANY_RE_search "x 10202003001000000 y".data = some "10202003001000000".data := by decide
example : IKPU_ANY_RE_search "123456789012345678".data = none := by decide
example : PRICE_LINE_RE_match "123сум".data = true := by decide
example : PRICE_LINE_RE_match "12 сум".data = false := by decide

/-- The unit alternatives of `_WEIGHT_RE`, in alternation order
(lowercase; matching is case-insensitive). -/
def weightUnits : List (List Char) :=
  ["г".data, "гр".data, "g".data, "gr".data, "kg".data, "кг".data,
   "mg".data, "мг".data, "ml".data, "мл".data, "l".data, "л".data,
   "oz".data, "шт".data, "pcs".data, "pc".data, "piece".data,
   "pieces".data, "dona".data, "ta".data]

/-- Try the unit alternatives of `_WEIGHT_RE` at the start of `t`
(case-insensitively), requiring the trailing `\b`; ordered alternation:
the first alternative whose boundary also holds wins. -/
def unitAt (t : List Char) : Option Nat :=
  weightUnits.findSome? (fun u =>
    if lowerChars (t.take u.length) = u then
      if boundaryHead (t.drop u.length) then some u.length else none
    else none)

/-- `\s*` then a unit with its boundary; returns the consumed length. -/
def unitAfterWs (t : List Char) : Option Nat :=
  let w := t.takeWhile pyIsSpace
  (unitAt (t.drop w.length)).map (fun n => n + w.length)

/-- Does `\d+(?:[.,]\d+)?\s*UNIT\b` match at the start of `s`?  Returns the
matched length.  The greedy fraction is preferred; if no unit follows it the
engine falls back to the fractionless reading (where the `.`/`,` then
blocks any unit, handled by `unitAfterWs` failing). -/
def weightMatchLen (s : List Char) : Option Nat :=
  let d := s.takeWhile pyIsDigit
  if d.isEmpty then none
  else
    let rest1 := s.drop d.length
    let withFrac : Option Nat :=
      match rest1 with
      | c :: r2 =>
          if c = '.' || c = ',' then
            let f := r2.takeWhile pyIsDigit
            if f.isEmpty then none
            else (unitAfterWs (r2.drop f.length)).map
              (fun n => d.length + 1 + f.length + n)
          else none
      | [] => none
    match withFrac with
    | some n => some n
    | none => (unitAfterWs rest1).map (fun n => d.length + n)

/-- Leftmost scan for `_WEIGHT_RE`; a match can only begin at a `\b` before
a digit. -/
def weightGo : Option Char → List Char → Option (List Char)
  | _, [] => none
  | prev, c :: rest =>
      match (if boundaryBefore prev then weightMatchLen (c :: rest) else none) with
      | some n => some ((c :: rest).take n)
      | none => weightGo (some c) rest

/-- `_WEIGHT_RE.search`: the first `number [fraction] unit` token, with its
full matched text (`group(0)`). -/
def WEIGHT_RE_search (l : List Char) : Option (List Char) := weightGo none l

example : WEIGHT_RE_search "400 г - 60000".data = some "400 г".data := by decide
example : WEIGHT_RE_search "0,25л".data = some "0,25л".data := by decide
example : WEIGHT_RE_search "123g5".data = none := by decide
example : WEIGHT_RE_search "10202003001000000".data = none := by decide

/-- Does `\b\d+(?:[.,]\d+)?\b` match at the start of `s`?  Returns the
matched length; the greedy fraction is preferred, falling back to the bare
digit run (whose trailing boundary then always holds at a `.`/`,`). -/
def numMatchLen (s : List Char) : Option Nat :=
  let d := s.takeWhile pyIsDigit
  if d.isEmpty then none
  else
    let rest1 := s.drop d.length
    let withFrac : Option Nat :=
      match rest1 with
      | c :: r2 =>
          if c = '.' || c = ',' then
            let f := r2.takeWhile pyIsDigit
            if f.isEmpty then none
            else if boundaryHead (r2.drop f.length) then
              some (d.length + 1 + f.length)
            else none
          else none
      | [] => none
    match withFrac with
    | some n => some n
    | none => if boundaryHead rest1 then some d.length else none

/-- Leftmost scan for `re.search(r"\b\d+(?:[.,]\d+)?\b", raw)`. -/
def numGo : Option Char → List Char → Option (List Char)
  | _, [] => none
  | prev, c :: rest =>
      match (if boundaryBefore prev then numMatchLen (c :: rest) else none) with
      | some n => some ((c :: rest).take n)
      | none => numGo (some c) rest

/-- `re.search(r"\b\d+(?:[.,]\d+)?\b", raw)` of `_normalize_weight_value`. -/
def NUM_RE_search (l : List Char) : Option (List Char) := numGo none l

example : NUM_RE_search "1.5x".data = some "1".data := by decide
example : NUM_RE_search "12a".data = none := by decide

/-- Case-insensitive literal word at the start of `t` with a trailing `\b`. -/
def wordAt (w : List Char) (t : List Char) : Option Nat :=
  if lowerChars (t.take w.length) = w then
    if boundaryHead (t.drop w.length) then some w.length else none
  else none

/-- The `вес\s*нетто` alternative of `_WEIGHT_ATTR_RE` with its trailing
`\b`. -/
def vesNettoAt (t : List Char) : Option Nat :=
  if lowerChars (t.take 3) = "вес".data then
    let r := t.drop 3
    let w := r.takeWhile pyIsSpace
    if lowerChars ((r.drop w.length).take 5) = "нетто".data then
      if boundaryHead ((r.drop w.length).drop 5) then some (3 + w.length + 5)
      else none
    else none
  else none

/-- The suffix class `[a-zа-яё\.]` of `_WEIGHT_ATTR_RE` under
`re.IGNORECASE`. -/
def isAttrSuffixChar (c : Char) : Bool :=
  ('a' ≤ c && c ≤ 'z') || ('A' ≤ c && c ≤ 'Z') ||
  (Char.ofNat 0x430 ≤ c && c ≤ Char.ofNat 0x44F) ||
  (Char.ofNat 0x410 ≤ c && c ≤ Char.ofNat 0x42F) ||
  c = Char.ofNat 0x451 || c = Char.ofNat 0x401 || c = '.'

/-- The `\s*[:\-]?\s*(\d+(?:[.,]\d+)?(?:\s*[a-zа-яё\.]{0,6})?)` tail of
`_WEIGHT_ATTR_RE`: skip whitespace, optionally one `:`/`-` then whitespace,
then the captured group — digits, an optional fraction, and an optional
greedy `whitespace + up-to-six suffix characters` tail (which, being
optional with no following requirement, always participates, possibly
capturing trailing whitespace alone).  Returns `group(1)`. -/
def attrAfterKey (t : List Char) : Option (List Char) :=
  let s1 := t.dropWhile pyIsSpace
  let s2 :=
    match s1 with
    | c :: r => if c = ':' || c = '-' then r.dropWhile pyIsSpace else s1
    | [] => s1
  let d := s2.takeWhile pyIsDigit
  if d.isEmpty then none
  else
    let r1 := s2.drop d.length
    let fracLen : Nat :=
      match r1 with
      | c :: rr =>
          if c = '.' || c = ',' then
            let f := rr.takeWhile pyIsDigit
            if f.isEmpty then 0 else 1 + f.length
          else 0
      | [] => 0
    let r2 := r1.drop fracLen
    let w := r2.takeWhile pyIsSpace
    let sfx := ((r2.drop w.length).takeWhile isAttrSuffixChar).take 6
    some (d ++ r1.take fracLen ++ w ++ sfx)

/-- One position of `_WEIGHT_ATTR_RE`: the keyword alternatives in
alternation order, each with its trailing `\b`, then the captured tail; on
failure of the tail the engine falls through to the next alternative. -/
def weightAttrAt (t : List Char) : Option (List Char) :=
  (match wordAt "вес".data t with
   | some k => attrAfterKey (t.drop k)
   | none => none) <|>
  (match vesNettoAt t with
   | some k => attrAfterKey (t.drop k)
   | none => none) <|>
  (match wordAt "нетто".data t with
   | some k => attrAfterKey (t.drop k)
   | none => none) <|>
  (match wordAt "weight".data t with
   | some k => attrAfterKey (t.drop k)
   | none => none) <|>
  (match wordAt "massa".data t with
   | some k => attrAfterKey (t.drop k)
   | none => none) <|>
  (match wordAt "mass".data t with
   | some k => attrAfterKey (t.drop k)
   | none => none)

/-- Leftmost scan for `_WEIGHT_ATTR_RE` (a keyword can only begin at a
`\b`). -/
def weightAttrGo : Option Char → List Char → Option (List Char)
  | _, [] => none
  | prev, c :: rest =>
      match (if boundaryBefore prev then weightAttrAt (c :: rest) else none) with
      | some g => some g
      | none => weightAttrGo (some c) rest

/-- `_WEIGHT_ATTR_RE.search`, returning `group(1)`. -/
def WEIGHT_ATTR_RE_search (l : List Char) : Option (List Char) :=
  weightAttrGo none l

example : WEIGHT_ATTR_RE_search "вес нетто 100".data = some "100".data := by decide
example : WEIGHT_ATTR_RE_search "вес: 200 г".data = some "200 г".data := by decide
example : WEIGHT_ATTR_RE_search "масса 5".data = none := by decide
example : WEIGHT_ATTR_RE_search "Плов".data = none := by decide

/-- The calorie alternatives of `_COMPOSITION_STOP_RE`, in alternation
order. -/
def compStopWords : List (List Char) :=
  ["ккал".data, "калл".data, "кал".data, "kcal".data, "cal".data]

/-- One position of `_COMPOSITION_STOP_RE = \b(ккал|калл|кал|kcal|cal)\b`. -/
def compStopAt (t : List Char) : Bool :=
  compStopWords.any (fun w => (wordAt w t).isSome)

/-- Search scan for `_COMPOSITION_STOP_RE` (existence only). -/
def compStopGo : Option Char → List Char → Bool
  | _, [] => false
  | prev, c :: rest =>
      (boundaryBefore prev && compStopAt (c :: rest)) || compStopGo (some c) rest

/-- `_COMPOSITION_STOP_RE.search(line)` (case-insensitive). -/
def COMPOSITION_STOP_RE_search (l : List Char) : Bool := compStopGo none l

example : COMPOSITION_STOP_RE_search "300 ккал".data = true := by decide
example : COMPOSITION_STOP_RE_search "рис, морковь, мясо".data = false := by decide

/-- One match attempt of `re.findall(r"\d[\d\s.,]{2,}\d", l)` at a digit:
take the maximal body-class run after the leading digit; backtracking of
the greedy `{2,}` makes the match end at the *last* digit at offset ≥ 3.
Returns the match and the rest of the input after it. -/
def runMatch (l : List Char) : Option (List Char × List Char) :=
  match l with
  | [] => none
  | c :: rest =>
      let run := rest.takeWhile pairPriceClass
      match ((run.enum.filter (fun p => 2 ≤ p.1 && pyIsDigit p.2)).map
          (fun p => p.1)).getLast? with
      | some j => some (c :: run.take (j + 1), rest.drop (j + 1))
      | none => none

/-- Fuel-driven scan for `re.findall(r"\d[\d\s.,]{2,}\d", l)`: leftmost,
non-overlapping matches.  The fuel (initialised to the input length, which
the scan never exhausts since every step consumes at least one character)
only discharges termination. -/
def findallRunsGo : Nat → List Char → List (List Char)
  | 0, _ => []
  | _ + 1, [] => []
  | fuel + 1, c :: rest =>
      if pyIsDigit c then
        match runMatch (c :: rest) with
        | some (m, rest2) => m :: findallRunsGo fuel rest2
        | none => findallRunsGo fuel rest
      else findallRunsGo fuel rest

/-- `re.findall(r"\d[\d\s.,]{2,}\d", l)`. -/
def findallRuns (l : List Char) : List (List Char) := findallRunsGo l.length l

example : findallRuns "9 000 и 12 500".data = ["9 000".data, "12 500".data] := by decide

/-! ## `dish_parser.py`: small helpers -/

/-- `re.sub(r"\D", "", s)`. -/
def digitsOf (l : List Char) : List Char := l.filter pyIsDigit

/-- `_digits_to_int`: keep the digits; accept only 3 to 9 of them (the
`int` call cannot fail on a digit string, so the `except` arm is dead). -/
def digits_to_int (l : List Char) : Option Nat :=
  let d := digitsOf l
  if 3 ≤ d.length && d.length ≤ 9 then some (natOfDigits d) else none

example : digits_to_int "60000".data = some 60000 := by decide
example : digits_to_int "12".data = none := by decide
example : digits_to_int "0,00".data = some 0 := by decide

/-- `_normalize_weight_value`: strip; a `_WEIGHT_RE` hit wins (stripped);
otherwise a bare number gets a default `" г"` unit; otherwise `None`. -/
def normalize_weight_value (raw : List Char) : Option String :=
  let r := stripChars raw
  if r.isEmpty then none
  else
    match WEIGHT_RE_search r with
    | some g => some (String.mk (stripChars g))
    | none =>
        match NUM_RE_search r with
        | some v => some (String.mk (v ++ [' ', 'г']))
        | none => none

example : normalize_weight_value "450".data = some "450 г" := by decide
example : normalize_weight_value "1.5 кг".data = some "1.5 кг" := by decide

/-! ## `dish_parser.py`: labeled fields, blocks, composition -/

/-- The `labeled` dict of `_extract_labeled_fields`, one optional value per
canonical key (a later assignment overwrites an earlier one, as in a
Python dict). -/
structure Labeled where
  name : Option String := none
  composition : Option String := none
  description : Option String := none
  price : Option String := none
  weight : Option String := none
  category : Option String := none
  ikpu : Option String := none
  deriving DecidableEq, Repr

/-- `labeled[canon] = value`. -/
def Labeled.set (lab : Labeled) (k : FieldKey) (v : String) : Labeled :=
  match k with
  | .name => { lab with name := some v }
  | .composition => { lab with composition := some v }
  | .description => { lab with description := some v }
  | .price => { lab with price := some v }
  | .weight => { lab with weight := some v }
  | .category => { lab with category := some v }
  | .ikpu => { lab with ikpu := some v }

/-- `len(labeled)`: the number of keys present. -/
def Labeled.count (lab : Labeled) : Nat :=
  [lab.name.isSome, lab.composition.isSome, lab.description.isSome,
   lab.price.isSome, lab.weight.isSome, lab.category.isSome,
   lab.ikpu.isSome].count true

/-- The space rule of `_extract_labeled_fields` (step 2): first
whitespace token is a known alias; a lone composition header is consumed;
with a value, the text after the first token (of the stripped line) is
stored.  `none` means the line was not consumed. -/
def spaceRuleStep (lab : Labeled) (line low : List Char) : Option Labeled :=
  match splitWs low with
  | [] => none
  | first :: restParts =>
      match canon_key first with
      | none => none
      | some c =>
          if c = FieldKey.composition && restParts.isEmpty then some lab
          else if !restParts.isEmpty then
            some (lab.set c
              (String.mk (stripChars ((stripChars line).drop first.length))))
          else none

/-- One line of `_extract_labeled_fields`: try `_LABELED_RE` (falling
through to the space rule if the key is unknown), special-casing a
composition header with an empty value. -/
def labeledLineStep (lab : Labeled) (line : List Char) : Option Labeled :=
  let low := lowerChars (stripChars line)
  match LABELED_RE_match line with
  | some (rawKey, post) =>
      match canon_key rawKey with
      | some c =>
          let value := String.mk (stripChars post)
          if c = FieldKey.composition && value.isEmpty then some lab
          else some (lab.set c value)
      | none => spaceRuleStep lab line low
  | none => spaceRuleStep lab line low

/-- Worker for `_extract_labeled_fields` (threads the dict, collects the
unconsumed lines in order). -/
def extractLabeledGo : List (List Char) → Labeled → Labeled × List (List Char)
  | [], lab => (lab, [])
  | line :: rest, lab =>
      match labeledLineStep lab line with
      | some lab2 => extractLabeledGo rest lab2
      | none =>
          let r := extractLabeledGo rest lab
          (r.1, line :: r.2)

/-- `_extract_labeled_fields(lines) -> (labeled, remaining)`. -/
def extract_labeled_fields (lines : List (List Char)) :
    Labeled × List (List Char) :=
  extractLabeledGo lines {}

/-- `_detect_structured`: at least two labeled fields, or one of
price/ikpu/category/weight labeled, or some line equal (lower, stripped) to
a composition alias. -/
def detect_structured (lab : Labeled) (lines : List (List Char)) : Bool :=
  2 ≤ lab.count ||
  lab.price.isSome || lab.ikpu.isSome || lab.category.isSome || lab.weight.isSome ||
  lines.any (fun l => compositionAliases.contains (stripChars (lowerChars l)))

/-- Header test of one `collect_block` line against the alias list, in
order: `some (some r)` = colon header with a non-empty inline rest, `some
none` = header without content, `none` = not a header.  The inline rest
comes from the original line after its first colon (`line.split(":",
1)[1].strip()`). -/
def headerKind (low line : List Char) : Option (Option (List Char)) :=
  compositionAliases.findSome? (fun a =>
    if startsWithAliasColon a low then
      let r := stripChars (afterFirstColon line)
      some (if r.isEmpty then none else some r)
    else if low = a then some none
    else none)

/-- Worker for `collect_block`: `collecting` starts false; a header line
turns it on (contributing its inline rest, if any); while collecting, a
stop-key line ends the whole loop, other lines are collected. -/
def collectBlockGo : List (List Char) → Bool → List (List Char)
  | [], _ => []
  | line :: rest, collecting =>
      let low := stripChars (lowerChars line)
      match headerKind low line with
      | some (some r) => r :: collectBlockGo rest true
      | some none => collectBlockGo rest true
      | none =>
          if collecting then
            if stopCondKeys low then [] else line :: collectBlockGo rest true
          else collectBlockGo rest false

/-- `collect_block(lines, "composition")` (the only header key the code
passes). -/
def collect_block (lines : List (List Char)) : List (List Char) :=
  collectBlockGo lines false

/-- Worker for `extract_composition_from_lines` with `stop_on_keys=True`
(the only call form): collect alphabetic lines until a stop condition. -/
def extractCompGo : List (List Char) → List (List Char)
  | [] => []
  | line :: rest =>
      let low := stripChars (lowerChars line)
      if low.isEmpty then extractCompGo rest
      else if (IKPU_ANY_RE_search line).isSome then []
      else if (PAIR_RE_match line).isSome then []
      else if PRICE_LINE_RE_match line then []
      else if COMPOSITION_STOP_RE_search line then []
      else if stopCondKeys low then []
      else if line.any pyIsAlpha then stripChars line :: extractCompGo rest
      else extractCompGo rest

/-- `extract_composition_from_lines`: the collected ingredient lines joined
with `", "`, or `None`. -/
def extract_composition_from_lines (lines : List (List Char)) : Option String :=
  match extractCompGo lines with
  | [] => none
  | xs => some (String.mk (joinComma xs))

/-- `normalize_texts`: split every non-empty fragment into lines, strip
them, keep the non-empty ones, in order. -/
def normalize_texts (texts : List String) : List (List Char) :=
  texts.flatMap (fun t =>
    if t.isEmpty then []
    else (splitlines t.data).filterMap (fun l =>
      let s := stripChars l
      if s.isEmpty then none else some s))

example : normalize_texts ["Плов\nСостав: рис", "", " 400 г - 60000 "] =
    ["Плов".data, "Состав: рис".data, "400 г - 60000".data] := by decide
example : (extract_labeled_fields ["Состав: рис, морковь, мясо".data]).1.composition =
    some "рис, морковь, мясо" := by decide
example : collect_block ["Плов".data, "Состав: рис, морковь, мясо".data,
    "400 г - 60000".data, "Цена: 100".data] =
    ["рис, морковь, мясо".data, "400 г - 60000".data] := by decide

/-! ## `dish_parser.py`: the dish record and the two parsers -/

/-- The `_meta` provenance sub-dict of a parse result. -/
structure ParseMeta where
  weight_source : Option String := none
  price_source : Option String := none
  composition_source : Option String := none
  ikpu_source : Option String := none
  structured_detected : Bool := false
  deriving DecidableEq, Repr

/-- One entry of the `prices` list: `{"weight": label, "price": value}`
(every creator in the code uses the key `"weight"` for the label). -/
structure Variant where
  weight : String
  price : Nat
  deriving DecidableEq, Repr

/-- The dish record returned by `parse` / `parse_bulk_position`.  The
defaults are the initial dict of both parsers. -/
structure ParseResult where
  name : Option String := none
  composition : Option String := none
  weight : Option String := none
  price : Option Nat := none
  prices : List Variant := []
  ikpu : Option String := none
  _meta : ParseMeta := {}
  deriving DecidableEq, Repr

/-- The body of the multi-price loop for one line: a `_PAIR_RE` match whose
price digits pass `_digits_to_int` becomes a variant (label stripped). -/
def variantOf (line : List Char) : Option Variant :=
  match PAIR_RE_match line with
  | none => none
  | some (label, priceStr) =>
      match digits_to_int priceStr with
      | none => none
      | some pv => some ⟨String.mk (stripChars label), pv⟩

/-- `min(p["price"] for p in prices)`. -/
def minPrices (vs : List Variant) : Nat := minNat (vs.map (fun v => v.price))

/-- The name scan of `parse` (first line with no digit that is neither a
bare stop key nor `key <separator> ...`). -/
def parseNameScan : List (List Char) → Option String
  | [] => none
  | line :: rest =>
      let low := stripChars (lowerChars line)
      if low.isEmpty then parseNameScan rest
      else if low.any pyIsDigit then parseNameScan rest
      else if STOP_KEYS.contains low then parseNameScan rest
      else if STOP_KEYS.any (fun k => startsWithKeyAndSep k low) then parseNameScan rest
      else some (String.mk (stripChars line))

/-- The name scan of `parse_bulk_position` (skips bare composition
headers, lines with digits, and lines containing any stop key as a
substring). -/
def bulkNameScan : List (List Char) → Option String
  | [] => none
  | line :: rest =>
      let low := stripChars (lowerChars line)
      if low.isEmpty then bulkNameScan rest
      else if compositionAliases.contains low then bulkNameScan rest
      else if low.any pyIsDigit then bulkNameScan rest
      else if STOP_KEYS.any (fun k => isSubstring k low) then bulkNameScan rest
      else some (String.mk (stripChars line))

/-- The legacy-fallback candidate filter of `parse` step (4). -/
def legacyCandidates (pool : List (List Char)) (name : Option String) :
    List (List Char) :=
  pool.filter (fun line =>
    let low := lowerChars line
    !(name == some (String.mk line)) &&
    (IKPU_ANY_RE_search line).isNone &&
    (PAIR_RE_match line).isNone &&
    !PRICE_LINE_RE_match line &&
    (WEIGHT_RE_search line).isNone &&
    !STOP_KEYS.any (fun k => isSubstring k low) &&
    line.any pyIsAlpha)

/-- `candidates.sort(key=len, reverse=True); candidates[0]`: the stable
descending sort by length makes this the earliest list element of maximal
length. -/
def pickLongest : List (List Char) → Option (List Char)
  | [] => none
  | x :: xs =>
      some (xs.foldl (fun best c => if best.length < c.length then c else best) x)

/-- The composition cascade of `parse` (block, labeled composition,
labeled description, free-text fallback, legacy longest line); returns the
composition and its provenance tag.  All values put into the cascade are
already stripped and non-empty, so Python's truthiness tests coincide with
presence. -/
def parseCompositionManual (lines remaining : List (List Char)) (lab : Labeled)
    (structured : Bool) (name : Option String) : Option String × Option String :=
  let block := collect_block lines
  let c1 : Option String :=
    if block.isEmpty then none else extract_composition_from_lines block
  let c2 := if c1.isSome then c1
    else if optTruthyStr lab.composition then
      some (String.mk (stripChars (lab.composition.getD "").data))
    else none
  let s2 : Option String := if c1.isSome then some "composition_block"
    else if optTruthyStr lab.composition then some "explicit_composition_attr"
    else none
  let c3 := if c2.isSome then c2
    else if optTruthyStr lab.description then
      some (String.mk (stripChars (lab.description.getD "").data))
    else none
  let s3 := if c2.isSome then s2
    else if optTruthyStr lab.description then some "description_used_as_composition"
    else none
  let e4 := extract_composition_from_lines (if structured then remaining else lines)
  let c4 := if c3.isSome then c3 else e4
  let s4 := if c3.isSome then s3
    else if e4.isSome then some "fallback_from_text" else none
  let e5 := (pickLongest (legacyCandidates (if structured then remaining else lines) name)).map
    (fun l => String.mk (stripChars l))
  let c5 := if c4.isSome then c4 else e5
  let s5 := if c4.isSome then s4
    else if e5.isSome then some "legacy_longest_line_fallback" else none
  (c5, s5)

/-- The composition cascade of `parse_bulk_position` (steps 1–4 only; no
legacy fallback). -/
def parseCompositionBulk (lines remaining : List (List Char)) (lab : Labeled)
    (structured : Bool) : Option String × Option String :=
  let block := collect_block lines
  let c1 : Option String :=
    if block.isEmpty then none else extract_composition_from_lines block
  let c2 := if c1.isSome then c1
    else if optTruthyStr lab.composition then
      some (String.mk (stripChars (lab.composition.getD "").data))
    else none
  let s2 : Option String := if c1.isSome then some "composition_block"
    else if optTruthyStr lab.composition then some "explicit_composition_attr"
    else none
  let c3 := if c2.isSome then c2
    else if optTruthyStr lab.description then
      some (String.mk (stripChars (lab.description.getD "").data))
    else none
  let s3 := if c2.isSome then s2
    else if optTruthyStr lab.description then some "description_used_as_composition"
    else none
  let e4 := extract_composition_from_lines (if structured then remaining else lines)
  let c4 := if c3.isSome then c3 else e4
  let s4 := if c3.isSome then s3
    else if e4.isSome then some "fallback_from_text" else none
  (c4, s4)

/-- The single-price/weight fallback candidates of `parse` (lines that are
neither product-code-bearing nor weight-bearing; a bare price line is taken
whole, other lines contribute their `re.findall` digit runs). -/
def priceFallbackCandidates (lines : List (List Char)) : List Nat :=
  lines.flatMap (fun line =>
    let l := stripChars (lowerChars line)
    if (IKPU_ANY_RE_search l).isSome then []
    else if (WEIGHT_RE_search l).isSome then []
    else if PRICE_LINE_RE_match l then
      match digits_to_int l with
      | some pv => [pv]
      | none => []
    else (findallRuns l).filterMap digits_to_int)

/-- `parse` on a non-empty normalized line list (the mutation sequence of
the Python function, staged as successive values). -/
def parseLines (lines : List (List Char)) : ParseResult :=
  let lr := extract_labeled_fields lines
  let labeled := lr.1
  let remaining := lr.2
  let structured := detect_structured labeled lines
  let fullText := lowerChars (joinLines lines)
  let ikpu := (IKPU_ANY_RE_search (joinLines lines)).map String.mk
  let ikpuSrc : Option String := if ikpu.isSome then some "detected_anywhere" else none
  let prices := lines.filterMap variantOf
  let price1 : Option Nat := if prices.isEmpty then none else some (minPrices prices)
  let priceSrc1 : Option String :=
    if prices.isEmpty then none else some "multi_price_pairs"
  let weight1 : Option String := none
  let labPriceVal : Option Nat :=
    if structured && optFalsyNat price1 && labeled.price.isSome then
      digits_to_int (labeled.price.getD "").data
    else none
  let price2 := match labPriceVal with | some pv => some pv | none => price1
  let priceSrc2 := match labPriceVal with
    | some _ => some "explicit_price_attr"
    | none => priceSrc1
  let labWeightVal : Option (List Char) :=
    if structured && optFalsyStr weight1 && labeled.weight.isSome then
      WEIGHT_RE_search (labeled.weight.getD "").data
    else none
  let weight2 := match labWeightVal with
    | some mw => some (String.mk (stripChars mw))
    | none => weight1
  let weightSrc2 : Option String := match labWeightVal with
    | some _ => some "explicit_weight_attr"
    | none => none
  let name :=
    match labeled.name with
    | some v => if !v.isEmpty then some (String.mk (stripChars v.data)) else parseNameScan lines
    | none => parseNameScan lines
  let comp := parseCompositionManual lines remaining labeled structured name
  let needFB := prices.isEmpty && optFalsyNat price2
  let fbWeight : Option (List Char) :=
    if needFB && optFalsyStr weight2 then WEIGHT_RE_search fullText else none
  let weight3 := match fbWeight with
    | some mw => some (String.mk (stripChars mw))
    | none => weight2
  let weightSrc3 := match fbWeight with
    | some _ => some "fallback_from_text"
    | none => weightSrc2
  let cands := if needFB then priceFallbackCandidates lines else []
  let price3 := if needFB && !cands.isEmpty then some (minNat cands) else price2
  let priceSrc3 := if needFB && !cands.isEmpty then some "fallback_from_text" else priceSrc2
  { name := name, composition := comp.1, weight := weight3, price := price3,
    prices := prices, ikpu := ikpu,
    _meta := { weight_source := weightSrc3, price_source := priceSrc3,
               composition_source := comp.2, ikpu_source := ikpuSrc,
               structured_detected := structured } }

/-- `dish_parser.parse`. -/
def parse (texts : List String) : ParseResult :=
  let lines := normalize_texts texts
  if lines.isEmpty then {} else parseLines lines

/-- The bare-price-line scan of `parse_bulk_position` (skips
product-code-bearing lines; breaks on the first bare price line whose
digits parse). -/
def bulkPriceScan : List (List Char) → Option Nat
  | [] => none
  | line :: rest =>
      if (IKPU_ANY_RE_search line).isSome then bulkPriceScan rest
      else if PRICE_LINE_RE_match line then
        match digits_to_int line with
        | some pv => some pv
        | none => bulkPriceScan rest
      else bulkPriceScan rest

/-- The `_WEIGHT_ATTR_RE` scan of `parse_bulk_position` (breaks on the
first line holding a weight attribute, whether or not its value
normalizes): `some r` = keyword found with normalized value `r`. -/
def bulkWeightAttrScan : List (List Char) → Option (Option String)
  | [] => none
  | line :: rest =>
      match WEIGHT_ATTR_RE_search line with
      | some g => some (normalize_weight_value g)
      | none => bulkWeightAttrScan rest

/-- The free-text weight scan of `parse_bulk_position` (skips
product-code-bearing lines). -/
def bulkWeightFallbackScan : List (List Char) → Option (List Char)
  | [] => none
  | line :: rest =>
      if (IKPU_ANY_RE_search line).isSome then bulkWeightFallbackScan rest
      else
        match WEIGHT_RE_search line with
        | some mw => some mw
        | none => bulkWeightFallbackScan rest

/-- `parse_bulk_position` on a non-empty normalized line list. -/
def parseBulkLines (lines : List (List Char)) : ParseResult :=
  let lr := extract_labeled_fields lines
  let labeled := lr.1
  let remaining := lr.2
  let structured := detect_structured labeled lines
  let ikpu := (IKPU_ANY_RE_search (joinLines lines)).map String.mk
  let ikpuSrc : Option String := if ikpu.isSome then some "explicit_key" else none
  let prices := lines.filterMap variantOf
  let labPriceVal : Option Nat :=
    if optTruthyStr labeled.price then digits_to_int (labeled.price.getD "").data
    else none
  let priceA : Option Nat := labPriceVal
  let priceSrcA : Option String := match labPriceVal with
    | some _ => some "explicit_price_attr"
    | none => none
  let scanVal : Option Nat := if optFalsyNat priceA then bulkPriceScan lines else none
  let priceB := match scanVal with | some pv => some pv | none => priceA
  let priceSrcB := match scanVal with
    | some _ => some "fallback_from_text"
    | none => priceSrcA
  let price1 := if prices.isEmpty then priceB else some (minPrices prices)
  let priceSrc1 : Option String :=
    if prices.isEmpty then priceSrcB else some "multi_price_pairs"
  let weight1 : Option String := none
  let attrRes := bulkWeightAttrScan lines
  let weightA := match attrRes with
    | some (some w) => some w
    | some none => weight1
    | none => weight1
  let weightSrcA : Option String := match attrRes with
    | some (some _) => some "explicit_weight_attr"
    | _ => none
  let keyA := attrRes.isSome
  let labW : Option (Option String) :=
    if optFalsyStr weightA && optTruthyStr labeled.weight then
      some (normalize_weight_value (labeled.weight.getD "").data)
    else none
  let weightB := match labW with
    | some (some w) => some w
    | some none => weightA
    | none => weightA
  let weightSrcB := match labW with
    | some (some _) => some "labeled_weight_block"
    | some none => weightSrcA
    | none => weightSrcA
  let keyB := keyA || labW.isSome
  let fbW : Option (List Char) :=
    if optFalsyStr weightB && !keyB then bulkWeightFallbackScan lines else none
  let weightC := match fbW with
    | some mw => some (String.mk (stripChars mw))
    | none => weightB
  let weightSrcC := match fbW with
    | some _ => some "fallback_from_text"
    | none => weightSrcB
  let name :=
    match labeled.name with
    | some v => if !v.isEmpty then some (String.mk (stripChars v.data)) else bulkNameScan lines
    | none => bulkNameScan lines
  let comp := parseCompositionBulk lines remaining labeled structured
  { name := name, composition := comp.1, weight := weightC, price := price1,
    prices := prices, ikpu := ikpu,
    _meta := { weight_source := weightSrcC, price_source := priceSrc1,
               composition_source := comp.2, ikpu_source := ikpuSrc,
               structured_detected := structured } }

/-- `dish_parser.parse_bulk_position`. -/
def parse_bulk_position (texts : List String) : ParseResult :=
  let lines := normalize_texts texts
  if lines.isEmpty then {} else parseBulkLines lines

/-! ## `sessions.py`: bulk segmentation -/

/-- The photo payload stored by `bulk_add_photo`
(`{"file_id", "kind", "message_id"}`). -/
structure PhotoObj where
  file_id : String
  kind : String
  message_id : Option Nat := none
  deriving DecidableEq, Repr

/-- One buffer entry (`{"type": "photo", ...}` / `{"type": "text", ...}`). -/
inductive BulkEvent
  | photo (obj : PhotoObj)
  | text (value : String)
  deriving DecidableEq, Repr

/-- Is a buffer entry a photo event? -/
def isPhotoEvent : BulkEvent → Bool
  | .photo _ => true
  | .text _ => false

/-- One position produced by `bulk_split_into_positions`. -/
structure BulkPosition where
  photo : PhotoObj
  photo_message_id : Option Nat
  texts : List String
  parsed : Option ParseResult
  deriving DecidableEq, Repr

/-- The loop of `bulk_split_into_positions`: a photo event flushes the
current position (if any) and opens a new one; a text event is appended to
the current position's text list, or skipped when none is open; the last
open position is flushed at the end. -/
def bulkSplitGo : Option BulkPosition → List BulkEvent → List BulkPosition
  | cur, [] =>
      (match cur with
       | none => []
       | some c => [c])
  | cur, .photo obj :: rest =>
      (match cur with
       | none => []
       | some c => [c]) ++ bulkSplitGo (some ⟨obj, obj.message_id, [], none⟩) rest
  | cur, .text v :: rest =>
      match cur with
      | none => bulkSplitGo none rest
      | some c => bulkSplitGo (some { c with texts := c.texts ++ [v] }) rest

/-- `sessions.bulk_split_into_positions`, as a function of the buffer. -/
def bulk_split_into_positions (buffer : List BulkEvent) : List BulkPosition :=
  bulkSplitGo none buffer

/-- The segmentation contract, written from the spec's words: text events
before the first photo are dropped; each photo event opens one position, in
order, whose text list is exactly the values of the text events up to the
next photo event. -/
def takeTexts : List BulkEvent → List String
  | [] => []
  | .photo _ :: _ => []
  | .text v :: rest => v :: takeTexts rest

/-- Spec-side segmentation (see `takeTexts`): one position per photo
event, in order, carrying the texts that follow it up to the next photo. -/
def segmentSpec : List BulkEvent → List BulkPosition
  | [] => []
  | .text _ :: rest => segmentSpec rest
  | .photo obj :: rest =>
      ⟨obj, obj.message_id, takeTexts rest, none⟩ :: segmentSpec rest

/-! ## `bot.py`: edits and sheet rows -/

/-- The editable fields of `apply_edit` (`key_map` of `edit_field`). -/
inductive EditField
  | name | composition | weight | prices | ikpu
  deriving DecidableEq, Repr

/-- The em-dash clear token `"—"`. -/
def emDashTok : String := "—"

/-- One line of the price-edit reparse: a line containing `"-"` is split at
its first hyphen; the digits of the right part (if any) give the price,
the stripped left part the label. -/
def editPriceLine (line : List Char) : Option Variant :=
  if line.contains '-' then
    let left := line.takeWhile (fun c => c ≠ '-')
    let right := (line.drop left.length).drop 1
    let pd := digitsOf right
    if pd.isEmpty then none
    else some ⟨String.mk (stripChars left), natOfDigits pd⟩
  else none

/-- `bot.apply_edit`, restricted to its effect on the record (the
surrounding session bookkeeping and re-rendering perform no further field
writes).  `rawText` is `message.text or ""`. -/
def apply_edit (edit_mode : EditField) (rawText : String)
    (parsed : ParseResult) : ParseResult :=
  let text := String.mk (stripChars rawText.data)
  if text = emDashTok || text = "-" || text = "" then
    match edit_mode with
    | .prices => { parsed with prices := [], price := none }
    | .name => { parsed with name := none }
    | .composition => { parsed with composition := none }
    | .weight => { parsed with weight := none }
    | .ikpu => { parsed with ikpu := none }
  else
    match edit_mode with
    | .prices =>
        let new_prices := (splitlines text.data).filterMap editPriceLine
        { parsed with
            prices := new_prices,
            price := if new_prices.isEmpty then none else some (minPrices new_prices),
            weight := none }
    | .name => { parsed with name := some text }
    | .composition => { parsed with composition := some text }
    | .weight => { parsed with weight := some text }
    | .ikpu => { parsed with ikpu := some text }

/-- A cell of a sheet-row dict: the values stored there are strings,
integers or `None`. -/
inductive CellVal
  | str (s : String)
  | nat (n : Nat)
  | null
  deriving DecidableEq, Repr

/-- An optional string as a cell. -/
def optStrCell : Option String → CellVal
  | some s => .str s
  | none => .null

/-- An optional integer as a cell. -/
def optNatCell : Option Nat → CellVal
  | some n => .nat n
  | none => .null

/-- One item row dict built by `build_sheet_items` (keys `Позиция`,
`Описание`, `Вес`, `Цена`, `Код ИКПУ`, `Картинка`, always all present). -/
structure SheetItem where
  pos : CellVal
  desc : CellVal
  weight : CellVal
  price : CellVal
  code : CellVal
  pic : CellVal
  deriving DecidableEq, Repr

/-- `bot.build_sheet_items`: one row per variant when the record has
variants (`p.get("label") or p.get("weight")` resolves to the variant's
`weight` field — no creator in the code ever sets a `"label"` key), else a
single row from the scalar fields. -/
def build_sheet_items (parsed : ParseResult) (photo_url : Option String) :
    List SheetItem :=
  if parsed.prices.isEmpty then
    [⟨optStrCell parsed.name, optStrCell parsed.composition,
      optStrCell parsed.weight, optNatCell parsed.price,
      optStrCell parsed.ikpu, optStrCell photo_url⟩]
  else
    parsed.prices.map (fun p =>
      ⟨optStrCell parsed.name, optStrCell parsed.composition,
       CellVal.str p.weight, CellVal.nat p.price,
       optStrCell parsed.ikpu, optStrCell photo_url⟩)

/-! ## `sheets.py`: fixed row layout -/

/-- `sheets.build_fixed_row` on an item dict carrying all six keys (as
every item built by `build_sheet_items` does; the `.get` defaults are then
never consulted): `Позиция, Описание, Цена, Вес, Код ИКПУ, Картинка`. -/
def build_fixed_row (values : SheetItem) : List CellVal :=
  [values.pos, values.desc, values.price, values.weight, values.code, values.pic]

/-- The row lists `export_rows` sends to the sheet (its I/O stripped):
`rows.append(build_fixed_row(it))` for each item. -/
def export_rows_payload (items : List SheetItem) : List (List CellVal) :=
  items.map build_fixed_row

/-! ## Concrete sample data used by witnesses and counterexamples -/

/-- The edge-case input of the specification (§8). -/
def plovInput : List String :=
  ["Плов", "Состав: рис, морковь, мясо", "400 г - 60000",
   "1000 г - 135000", "10202003001000000"]

/-- A dish record with two price variants satisfying the record invariant. -/
def sampleParsed : ParseResult :=
  { name := some "Плов", composition := some "рис, морковь, мясо",
    weight := none, price := some 60000,
    prices := [⟨"400 г", 60000⟩, ⟨"1000 г", 135000⟩],
    ikpu := some "10202003001000000",
    _meta := { price_source := some "multi_price_pairs" } }

/-- A concrete sheet item with distinguishable weight and price cells. -/
def sampleItem : SheetItem :=
  ⟨CellVal.str "Плов", CellVal.str "рис, морковь, мясо", CellVal.str "400 г",
   CellVal.nat 60000, CellVal.str "10202003001000000", CellVal.str "http://x/y.jpg"⟩

/-- A two-position bulk buffer (photo, two texts, photo, one text), with a
stray leading text. -/
def sampleBuffer : List BulkEvent :=
  [BulkEvent.text "stray caption",
   BulkEvent.photo ⟨"f1", "photo", some 10⟩,
   BulkEvent.text "Плов", BulkEvent.text "400 г - 60000",
   BulkEvent.photo ⟨"f2", "document", some 14⟩,
   BulkEvent.text "Лагман"]

/-! ## Helper lemmas -/

theorem bulkSplitGo_some (l : List BulkEvent) : ∀ c : BulkPosition,
    bulkSplitGo (some c) l = { c with texts := c.texts ++ takeTexts l } :: segmentSpec l := by
  induction l with
  | nil => intro c; simp [bulkSplitGo, takeTexts, segmentSpec]
  | cons e rest ih =>
      intro c
      cases e with
      | photo obj => simp [bulkSplitGo, takeTexts, segmentSpec, ih]
      | text v => simp [bulkSplitGo, takeTexts, segmentSpec, ih]

theorem bulkSplitGo_none (l : List BulkEvent) :
    bulkSplitGo none l = segmentSpec l := by
  induction l with
  | nil => rfl
  | cons e rest ih =>
      cases e with
      | photo obj => simp [bulkSplitGo, segmentSpec, bulkSplitGo_some]
      | text v => simpa [bulkSplitGo, segmentSpec] using ih

theorem segmentSpec_length (l : List BulkEvent) :
    (segmentSpec l).length = l.countP isPhotoEvent := by
  induction l with
  | nil => rfl
  | cons e rest ih => cases e <;> simp [segmentSpec, isPhotoEvent, List.countP_cons, ih]

theorem digit_not_word {c : Char} (h : pyIsWordChar c = false) : pyIsDigit c = false := by
  unfold pyIsWordChar at h
  simp only [Bool.or_eq_false_iff] at h
  exact h.1.2

theorem ikpuGo_sound : ∀ (l : List Char) (prev : Option Char) (r : List Char),
    ikpuGo prev l = some r →
    r.length = 17 ∧ r.all pyIsDigit = true ∧
    ∃ pre post, l = pre ++ r ++ post ∧
      (∀ c, pre.getLast? = some c → pyIsWordChar c = false) ∧
      (pre = [] → boundaryBefore prev = true) ∧
      (∀ c, post.head? = some c → pyIsWordChar c = false) := by
  intro l
  induction l with
  | nil => intro prev r h; simp [ikpuGo] at h
  | cons a rest ih =>
      intro prev r h
      rw [ikpuGo] at h
      by_cases hok : ikpuHereOk prev (a :: rest) = true
      · rw [if_pos hok] at h
        have hr : r = (a :: rest).take 17 := by
          exact (Option.some.injEq _ _).mp h.symm
        unfold ikpuHereOk at hok
        simp only [Bool.and_eq_true, beq_iff_eq] at hok
        obtain ⟨⟨⟨hb, hlen⟩, hdig⟩, hafter⟩ := hok
        subst hr
        refine ⟨hlen, hdig, [], (a :: rest).drop 17, ?_, ?_, ?_, ?_⟩
        · rw [List.nil_append, List.take_append_drop]
        · intro c hc; simp at hc
        · intro _; exact hb
        · intro c hc
          unfold boundaryHead at hafter
          rw [hc] at hafter
          simpa using hafter
      · rw [if_neg hok] at h
        obtain ⟨hlen, hdig, pre, post, heq, hpre, hpre0, hpost⟩ := ih (some a) r h
        refine ⟨hlen, hdig, a :: pre, post, by simp [heq], ?_, ?_, hpost⟩
        · intro c hc
          cases hp : pre with
          | nil =>
              subst hp
              simp at hc
              subst hc
              have := hpre0 rfl
              unfold boundaryBefore at this
              simpa using this
          | cons x xs =>
              rw [hp] at hc hpre
              rw [List.getLast?_cons_cons] at hc
              exact hpre c hc
        · intro hcontra; exact absurd hcontra (List.cons_ne_nil a pre)

theorem parseLines_prices (lines : List (List Char)) :
    (parseLines lines).prices = lines.filterMap variantOf := by
  simp [parseLines]

theorem parseLines_ikpu (lines : List (List Char)) :
    (parseLines lines).ikpu = (IKPU_ANY_RE_search (joinLines lines)).map String.mk := by
  simp [parseLines]

theorem parseBulkLines_prices (lines : List (List Char)) :
    (parseBulkLines lines).prices = lines.filterMap variantOf := by
  simp [parseBulkLines]

theorem parseBulkLines_ikpu (lines : List (List Char)) :
    (parseBulkLines lines).ikpu = (IKPU_ANY_RE_search (joinLines lines)).map String.mk := by
  simp [parseBulkLines]

theorem parse_eq_parseLines (texts : List String) (h : normalize_texts texts ≠ []) :
    parse texts = parseLines (normalize_texts texts) := by
  have hne : (normalize_texts texts).isEmpty = false := by
    simp [List.isEmpty_iff, h]
  simp [parse, hne]

theorem parse_bulk_eq_parseBulkLines (texts : List String)
    (h : normalize_texts texts ≠ []) :
    parse_bulk_position texts = parseBulkLines (normalize_texts texts) := by
  have hne : (normalize_texts texts).isEmpty = false := by
    simp [List.isEmpty_iff, h]
  simp [parse_bulk_position, hne]

theorem parseBulkLines_price_of_variants (lines : List (List Char))
    (h : lines.filterMap variantOf ≠ []) :
    (parseBulkLines lines).price = some (minPrices (lines.filterMap variantOf)) := by
  have hne : (lines.filterMap variantOf).isEmpty = false := by
    simp [List.isEmpty_iff, h]
  simp [parseBulkLines, hne]

theorem parseLines_price_weight_of_variants (lines : List (List Char))
    (h : lines.filterMap variantOf ≠ [])
    (hmin : 0 < minPrices (lines.filterMap variantOf))
    (hw : (extract_labeled_fields lines).1.weight = none) :
    (parseLines lines).price = some (minPrices (lines.filterMap variantOf)) ∧
    (parseLines lines).weight = none := by
  have hne : (lines.filterMap variantOf).isEmpty = false := by
    simp [List.isEmpty_iff, h]
  have h0 : (minPrices (lines.filterMap variantOf) == 0) = false := by
    simpa using Nat.pos_iff_ne_zero.mp hmin
  constructor
  · simp [parseLines, hne, optFalsyNat, h0]
  · simp [parseLines, hne, optFalsyNat, h0, hw]

theorem normalize_ne_nil_of_variants {texts : List String}
    (hv : (normalize_texts texts).filterMap variantOf ≠ []) :
    normalize_texts texts ≠ [] := by
  intro h
  rw [h] at hv
  exact hv rfl

/-! ## Claim theorems -/

/-- C2: For every event buffer, `bulk_split_into_positions` returns exactly
one position per photo event, in order; each text event lands in the text
list of the position opened by the most recent preceding photo event; text
events preceding the first photo event are silently dropped; an empty
buffer yields an empty position list.  (`segmentSpec` is the spec-side
segmentation; the equality pins down order and text attribution.) -/
theorem bulk_split_matches_spec :
    (∀ buffer : List BulkEvent,
        bulk_split_into_positions buffer = segmentSpec buffer ∧
        (bulk_split_into_positions buffer).length = buffer.countP isPhotoEvent) ∧
    bulk_split_into_positions ([] : List BulkEvent) = [] := by
  refine ⟨fun buffer => ⟨bulkSplitGo_none buffer, ?_⟩, rfl⟩
  rw [bulk_split_into_positions, bulkSplitGo_none, segmentSpec_length]

/-- C1 counterexample: the single normalized line `"400 г - 60000"` is a
variant-price match, yet `parse_bulk_position` returns `weight = "400 г"`
(its free-text weight pass picks the variant's own label up), not the
absent weight the claim requires of both parsers. -/
theorem variant_forces_weight_counter :
    (normalize_texts ["400 г - 60000"]).filterMap variantOf ≠ [] ∧
    (parse_bulk_position ["400 г - 60000"]).weight = some "400 г" ∧
    (parse_bulk_position ["400 г - 60000"]).weight ≠ none := by
  refine ⟨?_, ?_, ?_⟩ <;> decide

/-- C1 (amended): for every input whose normalized lines contain at least
one variant-producing match, both parsers return exactly those variants,
and `parse_bulk_position.price` is the minimum variant price; `parse`
moreover returns the minimum price and an absent weight provided the
minimum is nonzero and the labeled-field pass yielded no weight field
(`parse_bulk_position` may still fill `weight` from its weight passes). -/
theorem variant_extraction_min_price (texts : List String)
    (hv : (normalize_texts texts).filterMap variantOf ≠ [])
    (hmin : 0 < minPrices ((normalize_texts texts).filterMap variantOf))
    (hw : (extract_labeled_fields (normalize_texts texts)).1.weight = none) :
    (parse texts).prices = (normalize_texts texts).filterMap variantOf ∧
    (parse_bulk_position texts).prices = (normalize_texts texts).filterMap variantOf ∧
    (parse_bulk_position texts).price =
      some (minPrices ((normalize_texts texts).filterMap variantOf)) ∧
    (parse texts).price =
      some (minPrices ((normalize_texts texts).filterMap variantOf)) ∧
    (parse texts).weight = none := by
  have hne := normalize_ne_nil_of_variants hv
  rw [parse_eq_parseLines texts hne, parse_bulk_eq_parseBulkLines texts hne]
  obtain ⟨hp, hwn⟩ := parseLines_price_weight_of_variants _ hv hmin hw
  exact ⟨parseLines_prices _, parseBulkLines_prices _,
    parseBulkLines_price_of_variants _ hv, hp, hwn⟩

/-- C1 witness: the amended theorem applied to the concrete input
`["400 г — 60000"]`. -/
theorem variant_extraction_min_price_witness :
    ((normalize_texts ["400 г — 60000"]).filterMap variantOf ≠ [] ∧
     0 < minPrices ((normalize_texts ["400 г — 60000"]).filterMap variantOf) ∧
     (extract_labeled_fields (normalize_texts ["400 г — 60000"])).1.weight = none) ∧
    ((parse ["400 г — 60000"]).prices =
        (normalize_texts ["400 г — 60000"]).filterMap variantOf ∧
     (parse_bulk_position ["400 г — 60000"]).prices =
        (normalize_texts ["400 г — 60000"]).filterMap variantOf ∧
     (parse_bulk_position ["400 г — 60000"]).price =
        some (minPrices ((normalize_texts ["400 г — 60000"]).filterMap variantOf)) ∧
     (parse ["400 г — 60000"]).price =
        some (minPrices ((normalize_texts ["400 г — 60000"]).filterMap variantOf)) ∧
     (parse ["400 г — 60000"]).weight = none) :=
  ⟨⟨by decide, by decide, by decide⟩,
   variant_extraction_min_price ["400 г — 60000"] (by decide) (by decide) (by decide)⟩

/-- C7 counterexample: the line `"xx — 12"` matches the variant pattern
(`label — number`), yet neither parser records a variant for it — the digit
run `12` is shorter than the 3 digits `_digits_to_int` requires. -/
theorem pair_short_digits_counter :
    PAIR_RE_match "xx — 12".data = some ("xx".data, "12".data) ∧
    (parse ["xx — 12"]).prices = [] ∧
    (parse_bulk_position ["xx — 12"]).prices = [] := by
  refine ⟨?_, ?_, ?_⟩ <;> decide

/-- C7 (amended): every line matching the variant pattern whose price
part's digit run passes `_digits_to_int` (i.e. has 3 to 9 digits) becomes a
variant in the `prices` list of both parsers; matches with fewer or more
digits are skipped. -/
theorem pair_match_becomes_variant (texts : List String)
    (line lab pr : List Char) (v : Nat)
    (hline : line ∈ normalize_texts texts)
    (hm : PAIR_RE_match line = some (lab, pr))
    (hd : digits_to_int pr = some v) :
    (⟨String.mk (stripChars lab), v⟩ : Variant) ∈ (parse texts).prices ∧
    (⟨String.mk (stripChars lab), v⟩ : Variant) ∈ (parse_bulk_position texts).prices := by
  have hne : normalize_texts texts ≠ [] := by
    intro h
    rw [h] at hline
    exact absurd hline (List.not_mem_nil _)
  have hvar : variantOf line = some ⟨String.mk (stripChars lab), v⟩ := by
    simp [variantOf, hm, hd]
  have hmem : (⟨String.mk (stripChars lab), v⟩ : Variant) ∈
      (normalize_texts texts).filterMap variantOf :=
    List.mem_filterMap.mpr ⟨line, hline, hvar⟩
  rw [parse_eq_parseLines texts hne, parse_bulk_eq_parseBulkLines texts hne,
    parseLines_prices, parseBulkLines_prices]
  exact ⟨hmem, hmem⟩

/-- C7 witness: the amended theorem at the line `"400 г — 60000"`. -/
theorem pair_match_becomes_variant_witness :
    ("400 г — 60000".data ∈ normalize_texts ["400 г — 60000"] ∧
     PAIR_RE_match "400 г — 60000".data = some ("400 г".data, "60000".data) ∧
     digits_to_int "60000".data = some 60000) ∧
    ((⟨String.mk (stripChars "400 г".data), 60000⟩ : Variant) ∈
        (parse ["400 г — 60000"]).prices ∧
     (⟨String.mk (stripChars "400 г".data), 60000⟩ : Variant) ∈
        (parse_bulk_position ["400 г — 60000"]).prices) :=
  ⟨⟨by decide, by decide, by decide⟩,
   pair_match_becomes_variant ["400 г — 60000"] "400 г — 60000".data
     "400 г".data "60000".data 60000 (by decide) (by decide) (by decide)⟩

/-- C10: whenever either parser returns a product code, it is a string of
exactly 17 characters, all decimal digits, and it occurs in the joined
normalized input delimited by non-digit (indeed non-word) neighbours on
both sides. -/
theorem ikpu_well_formed (texts : List String) (s : String)
    (h : (parse texts).ikpu = some s ∨ (parse_bulk_position texts).ikpu = some s) :
    s.length = 17 ∧ s.data.all pyIsDigit = true ∧
    ∃ pre post, joinLines (normalize_texts texts) = pre ++ s.data ++ post ∧
      (∀ c, pre.getLast? = some c → pyIsDigit c = false) ∧
      (∀ c, post.head? = some c → pyIsDigit c = false) := by
  have hsearch : (IKPU_ANY_RE_search (joinLines (normalize_texts texts))).map
      String.mk = some s := by
    rcases h with h | h
    · by_cases hl : normalize_texts texts = []
      · rw [parse, hl] at h
        simp at h
      · rwa [parse_eq_parseLines texts hl, parseLines_ikpu] at h
    · by_cases hl : normalize_texts texts = []
      · rw [parse_bulk_position, hl] at h
        simp at h
      · rwa [parse_bulk_eq_parseBulkLines texts hl, parseBulkLines_ikpu] at h
  rw [Option.map_eq_some'] at hsearch
  obtain ⟨r, hr, hs⟩ := hsearch
  obtain ⟨hlen, hdig, pre, post, heq, hpre, _, hpost⟩ :=
    ikpuGo_sound (joinLines (normalize_texts texts)) none r hr
  subst hs
  exact ⟨hlen, hdig, pre, post, heq,
    fun c hc => digit_not_word (hpre c hc),
    fun c hc => digit_not_word (hpost c hc)⟩

/-- C10 witness: the theorem at the single-line input
`["10202003001000000"]`. -/
theorem ikpu_well_formed_witness :
    ((parse ["10202003001000000"]).ikpu = some "10202003001000000" ∨
     (parse_bulk_position ["10202003001000000"]).ikpu = some "10202003001000000") ∧
    ("10202003001000000".length = 17 ∧
     "10202003001000000".data.all pyIsDigit = true ∧
     ∃ pre post, joinLines (normalize_texts ["10202003001000000"]) =
        pre ++ "10202003001000000".data ++ post ∧
       (∀ c, pre.getLast? = some c → pyIsDigit c = false) ∧
       (∀ c, post.head? = some c → pyIsDigit c = false)) :=
  ⟨Or.inl (by decide),
   ikpu_well_formed ["10202003001000000"] "10202003001000000" (Or.inl (by decide))⟩

/-- C6 counterexample: on the specification's edge-case input,
`parse_bulk_position` returns `weight = "400 г"` (free-text fallback from
the first variant line), not the absent weight the claim states for both
parsers. -/
theorem plov_bulk_weight_counter :
    (parse_bulk_position plovInput).weight = some "400 г" ∧
    (parse_bulk_position plovInput).weight ≠ none := by
  constructor <;> decide

/-- C6 (amended): on the edge-case input, `parse` returns exactly the
claimed record (name `Плов`, composition from the block, variants in
order, price 60000, weight absent, the 17-digit product code);
`parse_bulk_position` returns the same record except that its weight is
`"400 г"`, picked up by its free-text weight pass, and its product-code
provenance tag differs. -/
theorem plov_extraction :
    parse plovInput =
      { name := some "Плов", composition := some "рис, морковь, мясо",
        weight := none, price := some 60000,
        prices := [⟨"400 г", 60000⟩, ⟨"1000 г", 135000⟩],
        ikpu := some "10202003001000000",
        _meta := { weight_source := none,
                   price_source := some "multi_price_pairs",
                   composition_source := some "composition_block",
                   ikpu_source := some "detected_anywhere",
                   structured_detected := false } } ∧
    parse_bulk_position plovInput =
      { name := some "Плов", composition := some "рис, морковь, мясо",
        weight := some "400 г", price := some 60000,
        prices := [⟨"400 г", 60000⟩, ⟨"1000 г", 135000⟩],
        ikpu := some "10202003001000000",
        _meta := { weight_source := some "fallback_from_text",
                   price_source := some "multi_price_pairs",
                   composition_source := some "composition_block",
                   ikpu_source := some "explicit_key",
                   structured_detected := false } } := by
  constructor <;> decide

/-- C3 counterexample: on a concrete item, the flat row carries the price
in the third column and the weight in the fourth — not weight-then-price
as the claim states. -/
theorem fixed_row_order_counter :
    build_fixed_row sampleItem ≠
      [CellVal.str "Плов", CellVal.str "рис, морковь, мясо", CellVal.str "400 г",
       CellVal.nat 60000, CellVal.str "10202003001000000",
       CellVal.str "http://x/y.jpg"] ∧
    build_fixed_row sampleItem =
      [CellVal.str "Плов", CellVal.str "рис, морковь, мясо", CellVal.nat 60000,
       CellVal.str "400 г", CellVal.str "10202003001000000",
       CellVal.str "http://x/y.jpg"] := by
  constructor <;> decide

/-- C3 (amended): for every exported row, the column order is position
name, composition, **price, weight**, product code, photo reference (price
third, weight fourth). -/
theorem fixed_row_order (items : List SheetItem) :
    export_rows_payload items = items.map (fun it =>
      [it.pos, it.desc, it.price, it.weight, it.code, it.pic]) := rfl

/-- C4: with N ≥ 1 variants, the row builder emits exactly N rows, one per
variant in the variants' original order, all sharing the record's name,
composition, product code and photo URL, each carrying the variant's label
as its weight column and the variant's price; with no variants it emits
exactly one row from the record's scalar weight and price. -/
theorem sheet_items_per_variant (parsed : ParseResult) (photo_url : Option String) :
    (parsed.prices ≠ [] →
      build_sheet_items parsed photo_url = parsed.prices.map (fun p =>
        ⟨optStrCell parsed.name, optStrCell parsed.composition,
         CellVal.str p.weight, CellVal.nat p.price,
         optStrCell parsed.ikpu, optStrCell photo_url⟩) ∧
      (build_sheet_items parsed photo_url).length = parsed.prices.length) ∧
    (parsed.prices = [] →
      build_sheet_items parsed photo_url =
        [⟨optStrCell parsed.name, optStrCell parsed.composition,
          optStrCell parsed.weight, optNatCell parsed.price,
          optStrCell parsed.ikpu, optStrCell photo_url⟩]) := by
  constructor
  · intro h
    have hne : parsed.prices.isEmpty = false := by
      simp [List.isEmpty_iff, h]
    constructor
    · simp [build_sheet_items, hne]
    · simp [build_sheet_items, hne]
  · intro h
    simp [build_sheet_items, h]

/-- C4 witness: the theorem's variant branch at a two-variant record. -/
theorem sheet_items_per_variant_witness :
    sampleParsed.prices ≠ [] ∧
    (build_sheet_items sampleParsed (some "http://x/y.jpg") =
        sampleParsed.prices.map (fun p =>
          ⟨optStrCell sampleParsed.name, optStrCell sampleParsed.composition,
           CellVal.str p.weight, CellVal.nat p.price,
           optStrCell sampleParsed.ikpu, optStrCell (some "http://x/y.jpg")⟩) ∧
     (build_sheet_items sampleParsed (some "http://x/y.jpg")).length =
        sampleParsed.prices.length) :=
  ⟨by decide,
   (sheet_items_per_variant sampleParsed (some "http://x/y.jpg")).1 (by decide)⟩

/-- C5 counterexample: a non-clear edit of the weight field on a record
that has price variants sets `weight` to the supplied text while the
variants stay non-empty — the weight-absence half of the invariant is not
preserved. -/
theorem edit_invariant_counter :
    (sampleParsed.prices ≠ [] ∧
     sampleParsed.price = some (minPrices sampleParsed.prices) ∧
     sampleParsed.weight = none) ∧
    (apply_edit EditField.weight "200 мл" sampleParsed).prices ≠ [] ∧
    (apply_edit EditField.weight "200 мл" sampleParsed).weight = some "200 мл" := by
  refine ⟨⟨?_, ?_, ?_⟩, ?_, ?_⟩ <;> decide

/-- C5 (amended): every edit preserves the price half of the record
invariant — whenever `prices` is non-empty after the edit, `price` equals
the minimum of the variants' prices; the weight-absence half is preserved
by every edit except a non-clear edit of the weight field itself (which
stores the supplied text even when variants exist). -/
theorem edit_preserves_invariant (parsed : ParseResult) (f : EditField) (t : String)
    (hinv : parsed.prices ≠ [] →
      parsed.price = some (minPrices parsed.prices) ∧ parsed.weight = none) :
    ((apply_edit f t parsed).prices ≠ [] →
      (apply_edit f t parsed).price = some (minPrices (apply_edit f t parsed).prices)) ∧
    ((f ≠ EditField.weight ∨ String.mk (stripChars t.data) = emDashTok ∨
        String.mk (stripChars t.data) = "-" ∨ String.mk (stripChars t.data) = "") →
      (apply_edit f t parsed).prices ≠ [] → (apply_edit f t parsed).weight = none) := by
  unfold apply_edit
  by_cases hc : (String.mk (stripChars t.data) = emDashTok ||
      String.mk (stripChars t.data) = "-" || String.mk (stripChars t.data) = "") = true
  · rw [if_pos hc]
    cases f <;> simp_all
  · rw [if_neg hc]
    cases f with
    | prices =>
        constructor
        · intro h
          simp only at h ⊢
          rcases hx : List.filterMap editPriceLine (splitlines (stripChars t.data)) with _ | ⟨a, l⟩
          · rw [hx] at h
            exact absurd rfl h
          · simp [hx]
        · intro _ _
          simp
    | name => simp_all
    | composition => simp_all
    | weight =>
        constructor
        · intro h
          simp_all
        · intro hor
          rcases hor with hor | hor | hor | hor
          · exact absurd rfl hor
          all_goals (exfalso; apply hc; simp [hor])
    | ikpu => simp_all

/-- C5 witness: the amended theorem at a non-price edit of a two-variant
record. -/
theorem edit_preserves_invariant_witness :
    (sampleParsed.prices ≠ [] →
      sampleParsed.price = some (minPrices sampleParsed.prices) ∧
      sampleParsed.weight = none) ∧
    (((apply_edit EditField.composition "зелень" sampleParsed).prices ≠ [] →
        (apply_edit EditField.composition "зелень" sampleParsed).price =
          some (minPrices (apply_edit EditField.composition "зелень" sampleParsed).prices)) ∧
     ((EditField.composition ≠ EditField.weight ∨
        String.mk (stripChars "зелень".data) = emDashTok ∨
        String.mk (stripChars "зелень".data) = "-" ∨
        String.mk (stripChars "зелень".data) = "") →
      (apply_edit EditField.composition "зелень" sampleParsed).prices ≠ [] →
      (apply_edit EditField.composition "зелень" sampleParsed).weight = none)) :=
  ⟨by decide,
   edit_preserves_invariant sampleParsed EditField.composition "зелень" (by decide)⟩

/-- C8: a price-field edit with a recognized clear token (`"—"` or `"-"`)
sets `price` to absent and empties the variant list, leaving `weight` and
every other field unchanged (the record-update equality pins all other
fields). -/
theorem price_clear_edit (parsed : ParseResult) (t : String)
    (h : t = emDashTok ∨ t = "-") :
    apply_edit EditField.prices t parsed =
      { parsed with prices := [], price := none } := by
  rcases h with h | h <;> subst h <;> rfl

/-- C8 witness: the theorem at the em-dash token and a two-variant
record. -/
theorem price_clear_edit_witness :
    (emDashTok = emDashTok ∨ emDashTok = "-") ∧
    apply_edit EditField.prices emDashTok sampleParsed =
      { sampleParsed with prices := [], price := none } :=
  ⟨Or.inl rfl, price_clear_edit sampleParsed emDashTok (Or.inl rfl)⟩

/-- C9: a price-field edit whose text is not a clear token and contains no
parseable `label - number` line empties the variant list, sets `price` to
absent, and also forces `weight` to absent (all other fields unchanged). -/
theorem price_unparseable_edit (parsed : ParseResult) (t : String)
    (hclear : ¬(String.mk (stripChars t.data) = emDashTok ∨
        String.mk (stripChars t.data) = "-" ∨ String.mk (stripChars t.data) = ""))
    (hlines : ∀ line ∈ splitlines (stripChars t.data), editPriceLine line = none) :
    apply_edit EditField.prices t parsed =
      { parsed with prices := [], price := none, weight := none } := by
  unfold apply_edit
  push_neg at hclear
  have hc : (String.mk (stripChars t.data) = emDashTok ||
      String.mk (stripChars t.data) = "-" || String.mk (stripChars t.data) = "") = false := by
    simp only [Bool.or_eq_false_iff, decide_eq_false_iff_not]
    exact ⟨⟨hclear.1, hclear.2.1⟩, hclear.2.2⟩
  rw [if_neg (by simp [hc])]
  have hnil : List.filterMap editPriceLine (splitlines (stripChars t.data)) = [] :=
    List.filterMap_eq_nil_iff.mpr hlines
  simp [hnil]

/-- C9 witness: the theorem at the unparseable text `"привет"`. -/
theorem price_unparseable_edit_witness :
    (¬(String.mk (stripChars "привет".data) = emDashTok ∨
        String.mk (stripChars "привет".data) = "-" ∨
        String.mk (stripChars "привет".data) = "") ∧
     ∀ line ∈ splitlines (stripChars "привет".data), editPriceLine line = none) ∧
    apply_edit EditField.prices "привет" sampleParsed =
      { sampleParsed with prices := [], price := none, weight := none } :=
  ⟨⟨by decide, by decide⟩,
   price_unparseable_edit sampleParsed "привет" (by decide) (by decide)⟩

example : bulk_split_into_positions sampleBuffer =
    [⟨⟨"f1", "photo", some 10⟩, some 10, ["Плов", "400 г - 60000"], none⟩,
     ⟨⟨"f2", "document", some 14⟩, some 14, ["Лагман"], none⟩] := by decide

example : bulk_split_into_positions [BulkEvent.text "stray caption"] = [] := by decide
